import Mathlib

/-!
Shallow embedding of the Lucky 7 round engine from
`src/client/src/components/GameRoom.tsx` (class `GameManager`) and the
transactional store `DatabaseStorage` in the same file bundle.

Conventions of the embedding:
* JS numbers holding chips / stakes / payouts are `Nat` (the schema declares
  `chips`, `bet_amount`, `win_amount` as SQL `integer`, and the engine only
  ever subtracts amounts it has checked to be affordable).
* `crypto.randomInt(0, n)` is modelled by an arbitrary entropy value
  `r : Nat` reduced as `r % n`; properties are proved for every `r`.
* `crypto.createHash('sha256')...readUInt32BE(0)` is an external library
  primitive (Node `crypto`, not part of this repository); it is modelled by
  an abstract deterministic function `sha32 : String → Nat` passed as a
  parameter, so determinism and the `mod tie-set size` indexing are exactly
  the source's structure.
* JS `Map` (insertion ordered) is an association list; `Map.set` replaces in
  place or appends, `Map.delete` removes.
* `async` store calls that can throw inside a transaction are `Except`-style
  branches returning the untouched state (the transaction rolls back).
-/

namespace Lucky7

/-- Card suits, as in `interface Card`. -/
inductive Suit
  | spades | hearts | diamonds | clubs
deriving DecidableEq

/-- Card colours, as in `interface Card`. -/
inductive CardColor
  | red | black
deriving DecidableEq

/-- `interface Card` from GameRoom.tsx. -/
structure Card where
  number : Nat
  suit : Suit
  color : CardColor
  revealed : Bool
deriving DecidableEq

/-- Room status, as in `interface GameRoom`. -/
inductive RoomStatus
  | waiting | countdown | playing | finished
deriving DecidableEq

/-- An entry of `room.activeBets` (the round's wager index): the objects
pushed there have shape `{ id, betType, betAmount }`. -/
structure ActiveBet where
  id : Nat
  betType : String
  betAmount : Nat
deriving DecidableEq

/-- An entry of `lockedBets` / `unlockedBets`: shape
`{ betType, amount, betId }`. -/
structure TrackedBet where
  betType : String
  amount : Nat
  betId : Nat
deriving DecidableEq

/-- `interface Player` (a room player, connection-scoped view). -/
structure RoomPlayer where
  socketId : String
  name : String
  chips : Nat
  dbId : Option Nat
deriving DecidableEq

/-- A persisted `players` row (the fields the engine touches). -/
structure DbPlayer where
  id : Nat
  chips : Nat
  totalWins : Nat
  totalLosses : Nat
deriving DecidableEq

/-- A persisted `bets` row (the fields the engine touches). -/
structure DbBet where
  id : Nat
  playerId : Nat
  betAmount : Nat
  betType : String
  won : Bool
  winAmount : Nat
deriving DecidableEq

/-- The round-scoped state of `interface GameRoom` used by the engine. -/
structure GameRoomState where
  status : RoomStatus
  currentCard : Option Card
  countdownTime : Nat
  gameStartTime : Option Nat
  currentGameId : Option Nat
  players : List RoomPlayer
  activeBets : List (String × List ActiveBet)
deriving DecidableEq

section AssocHelpers

variable {α β : Type} [DecidableEq α]

/-- `Map.get`: first matching key (JS maps have unique keys; association
lists model them with first-match lookup). -/
def alookup : List (α × β) → α → Option β
  | [], _ => none
  | p :: rest, k => if p.1 = k then some p.2 else alookup rest k

/-- `Map.set`: replace in place if the key exists, else append (JS insertion
order semantics). -/
def aset : List (α × β) → α → β → List (α × β)
  | [], k, v => [(k, v)]
  | p :: rest, k, v =>
    if p.1 = k then (k, v) :: rest else p :: aset rest k v

/-- `Map.delete`. -/
def adel : List (α × β) → α → List (α × β)
  | [], _ => []
  | p :: rest, k =>
    if p.1 = k then adel rest k else p :: adel rest k

end AssocHelpers

/-! ## Outcome Selector (`generateSmartCard`, `generateCardForResult`) -/

/-- Aggregated stakes per bet type (the five running totals computed at the
top of `generateSmartCard`). -/
structure BetTotals where
  low : Nat
  high : Nat
  lucky7 : Nat
  red : Nat
  black : Nat
deriving DecidableEq

/-- One step of the stake-aggregation loop over `room.activeBets`. -/
def addBetToTotals (t : BetTotals) (b : ActiveBet) : BetTotals :=
  if b.betType = "low" then { t with low := t.low + b.betAmount }
  else if b.betType = "high" then { t with high := t.high + b.betAmount }
  else if b.betType = "lucky7" then { t with lucky7 := t.lucky7 + b.betAmount }
  else if b.betType = "red" then { t with red := t.red + b.betAmount }
  else if b.betType = "black" then { t with black := t.black + b.betAmount }
  else t

/-- Total stakes per type over the round's wager index. -/
def betTotals (activeBets : List (String × List ActiveBet)) : BetTotals :=
  activeBets.foldl (fun t e => e.2.foldl addBetToTotals t) ⟨0, 0, 0, 0, 0⟩

/-- An element of the `outcomes` array inside `generateSmartCard`. -/
structure OutcomeChoice where
  type : String
  totalPayout : Nat
  color : CardColor
  validNumbers : List Nat
deriving DecidableEq

/-- The four candidate outcome categories (7 excluded), in source order. -/
def outcomesFor (t : BetTotals) : List OutcomeChoice :=
  [ ⟨"red-low", t.red * 2 + t.low * 2, CardColor.red, [1, 2, 3, 4, 5, 6]⟩,
    ⟨"red-high", t.red * 2 + t.high * 2, CardColor.red, [8, 9, 10, 11, 12, 13]⟩,
    ⟨"black-low", t.black * 2 + t.low * 2, CardColor.black, [1, 2, 3, 4, 5, 6]⟩,
    ⟨"black-high", t.black * 2 + t.high * 2, CardColor.black, [8, 9, 10, 11, 12, 13]⟩ ]

/-- `Math.min(...outcomes.map(o => o.totalPayout))`. -/
def minPayout (t : BetTotals) : Nat :=
  match (outcomesFor t).map (·.totalPayout) with
  | [] => 0
  | x :: xs => xs.foldl min x

/-- `outcomes.filter(o => o.totalPayout === minPayout)` — the tie set, in
stable (source) order. -/
def minPayoutOutcomes (t : BetTotals) : List OutcomeChoice :=
  (outcomesFor t).filter (fun o => decide (o.totalPayout = minPayout t))

/-- Placeholder used where JS indexing cannot go out of bounds. -/
def dummyOutcome : OutcomeChoice := ⟨"", 0, CardColor.red, []⟩

/-- The `selectedOutcome` computation of `generateSmartCard`: unique minimum
or the SHA-256-seeded deterministic tie-break
`hash(seed) % minPayoutOutcomes.length` with
`seed = (currentGameId || 0) + (gameStartTime || 0)`. -/
def selectedOutcome (sha32 : String → Nat) (gid gst : Option Nat)
    (t : BetTotals) : OutcomeChoice :=
  let tie := minPayoutOutcomes t
  if tie.length = 1 then
    tie.getD 0 dummyOutcome
  else
    let seed := gid.getD 0 + gst.getD 0
    tie.getD (sha32 (toString seed) % tie.length) dummyOutcome

/-- The numbers drawn in the no-bets branch (1–13 with 7 excluded). -/
def validNumbersNoBets : List Nat := [1, 2, 3, 4, 5, 6, 8, 9, 10, 11, 12, 13]

/-- `generateSmartCard`.  `rS`, `rN` are the entropy for the suit and
number draws (`crypto.randomInt`). -/
def generateSmartCard (sha32 : String → Nat) (room : GameRoomState)
    (rS rN : Nat) : Card :=
  let t := betTotals room.activeBets
  let totalBets := t.low + t.high + t.lucky7 + t.red + t.black
  if totalBets = 0 then
    let suit := [Suit.spades, Suit.hearts, Suit.diamonds, Suit.clubs].getD (rS % 4) Suit.spades
    let number := validNumbersNoBets.getD (rN % 12) 0
    let color := if suit = Suit.hearts ∨ suit = Suit.diamonds
                 then CardColor.red else CardColor.black
    ⟨number, suit, color, false⟩
  else
    let sel := selectedOutcome sha32 room.currentGameId room.gameStartTime t
    let number := sel.validNumbers.getD (rN % sel.validNumbers.length) 0
    let suit := if sel.color = CardColor.red
                then [Suit.hearts, Suit.diamonds].getD (rS % 2) Suit.hearts
                else [Suit.spades, Suit.clubs].getD (rS % 2) Suit.spades
    ⟨number, suit, sel.color, false⟩

/-- `generateCardForResult` — the admin-override materializer. -/
def generateCardForResult (result : String) (rS rN : Nat) : Card :=
  let suit := [Suit.spades, Suit.hearts, Suit.diamonds, Suit.clubs].getD (rS % 4) Suit.spades
  let suitColor := if suit = Suit.hearts ∨ suit = Suit.diamonds
                   then CardColor.red else CardColor.black
  if result = "red" then
    ⟨validNumbersNoBets.getD (rN % 12) 0, suit, CardColor.red, false⟩
  else if result = "black" then
    ⟨validNumbersNoBets.getD (rN % 12) 0, suit, CardColor.black, false⟩
  else if result = "low" then
    ⟨1 + rN % 6, suit, suitColor, false⟩
  else if result = "high" then
    ⟨8 + rN % 6, suit, suitColor, false⟩
  else if result = "lucky7" then
    ⟨7, suit, suitColor, false⟩
  else
    ⟨1 + rN % 6, suit, suitColor, false⟩

/-! ## Win conditions and payouts (`isBetWinner`, `calculateWinAmount`) -/

/-- `isBetWinner` — the switch over `bet.betType`. -/
def isBetWinner (bet : ActiveBet) (card : Card) : Bool :=
  if bet.betType = "red" then
    decide (card.color = CardColor.red) && decide (card.number ≠ 7)
  else if bet.betType = "black" then
    decide (card.color = CardColor.black) && decide (card.number ≠ 7)
  else if bet.betType = "high" then
    decide (8 ≤ card.number)
  else if bet.betType = "low" then
    decide (1 ≤ card.number) && decide (card.number ≤ 6)
  else if bet.betType = "lucky7" then
    decide (card.number = 7)
  else
    false

/-- The `payoutMultipliers` table of `calculateWinAmount`. -/
def payoutMultipliers (betType : String) : Nat :=
  if betType = "red" then 2
  else if betType = "black" then 2
  else if betType = "high" then 2
  else if betType = "low" then 2
  else if betType = "lucky7" then 12
  else 0

/-- `calculateWinAmount`.  `roundToCents` (`Math.round(x*100)/100`) is the
identity on the integral chip amounts the schema stores (`integer`
columns), so the multiplication is exact. -/
def calculateWinAmount (bet : ActiveBet) : Nat :=
  bet.betAmount * payoutMultipliers bet.betType

/-! ## Settlement (`resolveBets`) -/

/-- The data `resolveBets` passes to `storage.resolveBet` for one processed
wager (plus the stake it accumulates into the house totals). -/
structure Resolution where
  betId : Nat
  won : Bool
  winAmount : Nat
  betAmount : Nat
deriving DecidableEq

/-- The inner loop of `resolveBets` over one connection entry of
`room.activeBets`, threading the `processedBetIds` set; returns the
resolutions emitted and the grown set. -/
def settleBetsAux (card : Card) : List Nat → List ActiveBet →
    List Resolution × List Nat
  | processed, [] => ([], processed)
  | processed, b :: rest =>
    if b.id ∈ processed then
      settleBetsAux card processed rest
    else
      let won := isBetWinner b card
      let out := settleBetsAux card (b.id :: processed) rest
      (⟨b.id, won, if won then calculateWinAmount b else 0, b.betAmount⟩ :: out.1,
       out.2)

/-- The outer loop of `resolveBets` over the entries of `room.activeBets`
(one per connection handle). -/
def settleEntries (card : Card) : List Nat → List (String × List ActiveBet) →
    List Resolution
  | _, [] => []
  | processed, e :: rest =>
    let out := settleBetsAux card processed e.2
    out.1 ++ settleEntries card out.2 rest

/-- All resolutions emitted by one `resolveBets` call (fresh processed-id
set, as in the source). -/
def resolveBetsList (card : Card)
    (activeBets : List (String × List ActiveBet)) : List Resolution :=
  settleEntries card [] activeBets

/-- All bet ids recorded in the round's wager index (duplicates included). -/
def flatIds : List (String × List ActiveBet) → List Nat
  | [] => []
  | e :: rest => e.2.map (·.id) ++ flatIds rest

/-! ## Server/store state and the intent handlers -/

/-- The mutable state the handlers touch: the global room, the
`GameManager` maps, and the persisted rows behind the Ledger Gateway. -/
structure SysState where
  room : GameRoomState
  playerRooms : List String
  lockedBets : List (Nat × List TrackedBet)
  unlockedBets : List (String × List TrackedBet)
  adminOverrides : List (Nat × String)
  dbPlayers : List DbPlayer
  dbBets : List DbBet
  nextBetId : Nat
deriving DecidableEq

/-- `storage.getPlayer`. -/
def getPlayer : List DbPlayer → Nat → Option DbPlayer
  | [], _ => none
  | p :: rest, pid => if p.id = pid then some p else getPlayer rest pid

/-- `storage.updatePlayerChips` (sets the row's chip balance). -/
def updatePlayerChips : List DbPlayer → Nat → Nat → List DbPlayer
  | [], _, _ => []
  | p :: rest, pid, c =>
    (if p.id = pid then { p with chips := c } else p) ::
      updatePlayerChips rest pid c

/-- `storage.deleteBet` (drop the row with the given id). -/
def deleteBet : List DbBet → Nat → List DbBet
  | [], _ => []
  | b :: rest, bid =>
    if b.id = bid then deleteBet rest bid else b :: deleteBet rest bid

/-- `storage.placeBet` — the row-locked transaction: balance check, wager
insert and debit commit together or not at all (`none` = the transaction
threw and rolled back). -/
def storagePlaceBet (s : SysState) (pid amount : Nat) (betType : String) :
    Option (SysState × Nat) :=
  match getPlayer s.dbPlayers pid with
  | none => none
  | some p =>
    if p.chips < amount then none
    else
      some ({ s with
        dbPlayers := updatePlayerChips s.dbPlayers pid (p.chips - amount),
        dbBets := s.dbBets ++ [⟨s.nextBetId, pid, amount, betType, false, 0⟩],
        nextBetId := s.nextBetId + 1 }, s.nextBetId)

/-- The `validBetTypes` array of `handlePlaceBet`. -/
def validBetTypes : List String := ["red", "black", "high", "low", "lucky7"]

/-- `handlePlaceBet`.  Result: the new state and the `bet-error` message if
one was emitted (`none` = `bet-placed` was emitted). -/
def handlePlaceBet (s : SysState) (socketId betType : String)
    (amount : Nat) : SysState × Option String :=
  if s.room.status ≠ RoomStatus.countdown ∨ s.room.countdownTime ≤ 10 then
    (s, some "Cannot place bet at this time")
  else
    match s.room.players.find? (fun p => decide (p.socketId = socketId)) with
    | none => (s, some "You must be in the game to place bets")
    | some player =>
      match player.dbId with
      | none => (s, some "Authentication required to place bets")
      | some pid =>
        match getPlayer s.dbPlayers pid with
        | none => (s, some "Player record not found")
        | some dbPlayer =>
          if betType ∉ validBetTypes then (s, some "Invalid bet type")
          else if amount = 0 ∨ dbPlayer.chips < amount then
            (s, some "Invalid bet amount")
          else
            match s.room.currentGameId with
            | none => (s, some "Game not ready for betting")
            | some _ =>
              match storagePlaceBet s pid amount betType with
              | none => (s, some "Failed to place bet")
              | some (s1, betId) =>
                let newChips := dbPlayer.chips - amount
                ({ s1 with
                  room := { s1.room with
                    players := s1.room.players.map (fun p =>
                      if p.socketId = socketId then { p with chips := newChips }
                      else p),
                    activeBets := aset s1.room.activeBets socketId
                      ((alookup s1.room.activeBets socketId).getD [] ++
                        [⟨betId, betType, amount⟩]) },
                  unlockedBets := aset s1.unlockedBets socketId
                    ((alookup s1.unlockedBets socketId).getD [] ++
                      [⟨betType, amount, betId⟩]) }, none)

/-- `handleLockBet`. -/
def handleLockBet (s : SysState) (socketId : String) :
    SysState × Option String :=
  match s.room.players.find? (fun p => decide (p.socketId = socketId)) with
  | none => (s, some "Player not found")
  | some player =>
    match player.dbId with
    | none => (s, some "Player not found")
    | some pid =>
      if s.room.status ≠ RoomStatus.countdown ∨ s.room.countdownTime ≤ 10 then
        (s, some "Betting window closed")
      else if (alookup s.lockedBets pid).isSome then
        (s, some "You already have locked bets. Locked bets cannot be changed.")
      else
        match alookup s.unlockedBets socketId with
        | none => (s, some "No bets to lock. Please place a bet first.")
        | some betsToLock =>
          if betsToLock.isEmpty then
            (s, some "No bets to lock. Please place a bet first.")
          else
            ({ s with
              lockedBets := aset s.lockedBets pid betsToLock,
              unlockedBets := adel s.unlockedBets socketId }, none)

/-- Remove the first wager-index entry whose `id` matches (the
`findIndex` + `splice(idx, 1)` step). -/
def removeFirstBet : List ActiveBet → Nat → List ActiveBet
  | [], _ => []
  | b :: rest, bid =>
    if b.id = bid then rest else b :: removeFirstBet rest bid

/-- The per-bet index-removal loop shared by the cancellation paths and
the disconnect path. -/
def cancelBetsFromIndex : List ActiveBet → List TrackedBet → List ActiveBet
  | entry, [] => entry
  | entry, tb :: rest =>
    cancelBetsFromIndex (removeFirstBet entry tb.betId) rest

/-- Sum of stakes refunded for a batch of tracked bets. -/
def totalRefund (tbets : List TrackedBet) : Nat :=
  (tbets.map (·.amount)).sum

/-- Shared state mutation of the cancel / disconnect paths: delete every
tracked bet from the store, remove it from the wager-index entry of
`socketId` (deleting the entry when it empties), and credit the refund to
account `pid` when a refund is due and the row exists. -/
def cancelAndRefund (s : SysState) (socketId : String) (pid : Option Nat)
    (tbets : List TrackedBet) (refundCondition : Bool) : SysState :=
  let dbBets1 := tbets.foldl (fun db tb => deleteBet db tb.betId) s.dbBets
  let activeBets1 :=
    match alookup s.room.activeBets socketId with
    | none => s.room.activeBets
    | some entry =>
      let entry1 := cancelBetsFromIndex entry tbets
      if entry1.isEmpty then adel s.room.activeBets socketId
      else aset s.room.activeBets socketId entry1
  let dbPlayers1 :=
    match pid with
    | none => s.dbPlayers
    | some pid =>
      if refundCondition then
        match getPlayer s.dbPlayers pid with
        | none => s.dbPlayers
        | some dbp => updatePlayerChips s.dbPlayers pid (dbp.chips + totalRefund tbets)
      else s.dbPlayers
  { s with
    room := { s.room with activeBets := activeBets1 },
    dbBets := dbBets1,
    dbPlayers := dbPlayers1 }

/-- `handleCancelLockedBets`. -/
def handleCancelLockedBets (s : SysState) (socketId : String) :
    SysState × Option String :=
  match s.room.players.find? (fun p => decide (p.socketId = socketId)) with
  | none => (s, some "Player not found")
  | some player =>
    match player.dbId with
    | none => (s, some "Player not found")
    | some pid =>
      match alookup s.lockedBets pid with
      | none => (s, some "No locked bets to cancel")
      | some lbets =>
        if lbets.isEmpty then (s, some "No locked bets to cancel")
        else
          let s1 := cancelAndRefund s socketId (some pid) lbets true
          ({ s1 with lockedBets := adel s1.lockedBets pid }, none)

/-- `handleCancelBet` (the `cancelLocked` flag dispatches to the locked
path). -/
def handleCancelBet (s : SysState) (socketId : String)
    (cancelLocked : Bool) : SysState × Option String :=
  match s.room.players.find? (fun p => decide (p.socketId = socketId)) with
  | none => (s, some "Player not found")
  | some player =>
    match player.dbId with
    | none => (s, some "Player not found")
    | some pid =>
      if cancelLocked then handleCancelLockedBets s socketId
      else if (alookup s.lockedBets pid).isSome then
        (s, some "Cannot cancel unlocked bets when you have locked bets. Cancel locked bets first.")
      else
        match alookup s.unlockedBets socketId with
        | none => (s, some "No unlocked bets to cancel")
        | some ubets =>
          if ubets.isEmpty then (s, some "No unlocked bets to cancel")
          else
            let s1 := cancelAndRefund s socketId (some pid) ubets true
            ({ s1 with unlockedBets := adel s1.unlockedBets socketId }, none)

/-- `leaveRoom` — the disconnect path: refund and drop unlocked wagers,
preserve locked wagers and their wager-index entries, remove the player. -/
def leaveRoom (s : SysState) (socketId : String) : SysState :=
  if socketId ∉ s.playerRooms then s
  else
    let s0 := { s with playerRooms := s.playerRooms.filter (fun x => decide (x ≠ socketId)) }
    let player? := s0.room.players.find? (fun p => decide (p.socketId = socketId))
    let s1 :=
      match alookup s0.unlockedBets socketId with
      | none => s0
      | some ubets =>
        let s1 := cancelAndRefund s0 socketId (player?.bind (·.dbId)) ubets
          (decide (0 < totalRefund ubets))
        { s1 with unlockedBets := adel s1.unlockedBets socketId }
    { s1 with
      room := { s1.room with
        players := s1.room.players.filter (fun p => decide (p.socketId ≠ socketId)) } }

/-- `sanitizeRoomForBroadcast`: card details only when the status is
`playing` and the card is revealed; the internal wager index is stripped. -/
def sanitizeRoomForBroadcast (room : GameRoomState) : GameRoomState :=
  { room with
    currentCard :=
      match room.currentCard with
      | some c => if room.status = RoomStatus.playing ∧ c.revealed then some c else none
      | none => none,
    activeBets := [] }

/-- One countdown interval tick of `startGame`: decrement, materialize the
outcome at the 10-seconds mark, and build the sanitized `countdown-tick`
payload. -/
def countdownTick (sha32 : String → Nat) (rS rN : Nat)
    (room : GameRoomState) : GameRoomState × (Nat × GameRoomState) :=
  let room1 := { room with countdownTime := room.countdownTime - 1 }
  let room2 :=
    if room1.countdownTime = 10 ∧ room1.currentCard = none then
      { room1 with currentCard := some (generateSmartCard sha32 room1 rS rN) }
    else room1
  (room2, (room2.countdownTime, sanitizeRoomForBroadcast room2))

/-- The synchronous head of `startGame` (round reset to `countdown`) and
its sanitized `game-starting` payload. -/
def startGameUpdate (room : GameRoomState) (now gameId : Nat) :
    GameRoomState × GameRoomState :=
  let room1 := { room with
    status := RoomStatus.countdown,
    countdownTime := 30,
    gameStartTime := some now,
    currentCard := none,
    currentGameId := some gameId }
  (room1, sanitizeRoomForBroadcast room1)

/-- `revealCard`: guard on a materialized card, apply a pending admin
override (consuming it), mark the card revealed, enter `playing`, and run
settlement (`resolveBets`: resolve each indexed wager once, then clear the
wager index and the locked partition).  Returns the resolutions emitted,
`none` when the guard aborted. -/
def revealCard (s : SysState) (rS rN : Nat) :
    SysState × Option (List Resolution) :=
  match s.room.currentCard with
  | none => (s, none)
  | some _ =>
    let s1 :=
      match s.room.currentGameId with
      | none => s
      | some gid =>
        match alookup s.adminOverrides gid with
        | none => s
        | some overrideResult =>
          { s with
            room := { s.room with
              currentCard := some (generateCardForResult overrideResult rS rN) },
            adminOverrides := adel s.adminOverrides gid }
    let s2 := { s1 with
      room := { s1.room with
        status := RoomStatus.playing,
        currentCard := s1.room.currentCard.map
          (fun c : Card => { c with revealed := true }) } }
    match s2.room.currentCard with
    | none => (s2, none)
    | some card =>
      let rs := resolveBetsList card s2.room.activeBets
      ({ s2 with
        room := { s2.room with activeBets := [] },
        lockedBets := [] }, some rs)

/-! ## Concrete states used by examples and witnesses -/

/-- The spec's worked example: stakes low = 100, high = 0, red = 50. -/
def exampleActiveBets : List (String × List ActiveBet) :=
  [("s1", [⟨1, "low", 100⟩, ⟨2, "red", 50⟩])]

/-- A countdown round carrying the example stakes. -/
def exampleRoom : GameRoomState :=
  ⟨RoomStatus.countdown, none, 30, some 1000, some 1, [], exampleActiveBets⟩

/-- A quiet lobby room. -/
def emptyRoom : GameRoomState :=
  ⟨RoomStatus.waiting, none, 30, none, none, [], []⟩

/-- A countdown round in the admin-override window: the outcome is already
materialized (unrevealed). -/
def cdRoom : GameRoomState :=
  ⟨RoomStatus.countdown, some ⟨5, Suit.hearts, CardColor.red, false⟩, 11,
    some 1000, some 1, [], exampleActiveBets⟩

/-- A small running system: one authenticated player with one unlocked
pending wager. -/
def witState : SysState where
  room := ⟨RoomStatus.countdown, none, 30, some 1000, some 1,
    [⟨"s1", "Alice", 200, some 1⟩], [("s1", [⟨10, "red", 50⟩])]⟩
  playerRooms := ["s1"]
  lockedBets := []
  unlockedBets := [("s1", [⟨"red", 50, 10⟩])]
  adminOverrides := []
  dbPlayers := [⟨1, 150, 0, 0⟩]
  dbBets := [⟨10, 1, 50, "red", false, 0⟩]
  nextBetId := 11

/-- `witState` after the betting window closed and the round entered
`playing` (the wager was never cancelled). -/
def playingState : SysState :=
  { witState with
    room := { witState.room with
      status := RoomStatus.playing, countdownTime := 0 } }

/-- `witState` at the reveal instant with no outcome ever materialized. -/
def noCardState : SysState :=
  { witState with
    room := { witState.room with countdownTime := 0 } }

/-- A wager index carrying the same bet id under two connection entries
(the shape the reconciler can briefly produce on reconnect). -/
def dupIndex : List (String × List ActiveBet) :=
  [("s1", [⟨10, "red", 50⟩]), ("s2", [⟨10, "red", 50⟩, ⟨11, "low", 20⟩])]

/-! ## Generic list lemmas for the selector proofs -/

theorem getD_mem_or_default {α : Type} (l : List α) (i : Nat) (d : α) :
    l.getD i d ∈ l ∨ l.getD i d = d := by
  induction l generalizing i with
  | nil => right; rfl
  | cons x xs ih =>
    cases i with
    | zero => left; simp [List.getD]
    | succ n =>
      rcases ih n with h | h
      · left; simp [List.getD] at h ⊢; right; simpa using h
      · right; simpa [List.getD] using h

theorem getD_mem_of_lt {α : Type} (l : List α) (i : Nat) (d : α)
    (h : i < l.length) : l.getD i d ∈ l := by
  induction l generalizing i with
  | nil => simp at h
  | cons x xs ih =>
    cases i with
    | zero => rw [List.getD_cons_zero]; exact List.mem_cons_self x xs
    | succ n =>
      rw [List.getD_cons_succ]
      exact List.mem_cons_of_mem x (ih n (by simpa using h))

theorem foldl_min_mem (xs : List Nat) :
    ∀ x : Nat, xs.foldl min x ∈ x :: xs := by
  induction xs with
  | nil => intro x; simp
  | cons y ys ih =>
    intro x
    simp only [List.foldl_cons]
    have h := ih (min x y)
    rcases List.mem_cons.mp h with h | h
    · rw [h]
      rcases Nat.le_total x y with hxy | hxy
      · rw [Nat.min_eq_left hxy]; exact List.mem_cons_self x (y :: ys)
      · rw [Nat.min_eq_right hxy]
        exact List.mem_cons_of_mem x (List.mem_cons_self y ys)
    · exact List.mem_cons_of_mem x (List.mem_cons_of_mem y h)

theorem foldl_min_le (xs : List Nat) :
    ∀ x : Nat, ∀ y ∈ x :: xs, xs.foldl min x ≤ y := by
  induction xs with
  | nil =>
    intro x y hy
    simp at hy
    subst hy
    simp
  | cons z zs ih =>
    intro x y hy
    simp only [List.foldl_cons]
    have hself : zs.foldl min (min x z) ≤ min x z :=
      ih (min x z) (min x z) (List.mem_cons_self _ _)
    rcases List.mem_cons.mp hy with h | h
    · subst h; exact le_trans hself (Nat.min_le_left y z)
    · rcases List.mem_cons.mp h with h | h
      · subst h; exact le_trans hself (Nat.min_le_right x y)
      · exact ih (min x z) y (List.mem_cons_of_mem _ h)

/-- `minPayout` is one of the four candidate payouts. -/
theorem minPayout_mem (t : BetTotals) :
    minPayout t ∈ (outcomesFor t).map (·.totalPayout) :=
  foldl_min_mem
    [t.red * 2 + t.high * 2, t.black * 2 + t.low * 2, t.black * 2 + t.high * 2]
    (t.red * 2 + t.low * 2)

/-- `minPayout` is a lower bound of the four candidate payouts. -/
theorem minPayout_le (t : BetTotals) :
    ∀ p ∈ (outcomesFor t).map (·.totalPayout), minPayout t ≤ p :=
  foldl_min_le
    [t.red * 2 + t.high * 2, t.black * 2 + t.low * 2, t.black * 2 + t.high * 2]
    (t.red * 2 + t.low * 2)

/-- The tie set is never empty: the minimum is attained. -/
theorem minPayoutOutcomes_ne_nil (t : BetTotals) :
    minPayoutOutcomes t ≠ [] := by
  rcases List.mem_map.mp (minPayout_mem t) with ⟨o, ho, hpay⟩
  have hmem : o ∈ minPayoutOutcomes t :=
    List.mem_filter.mpr ⟨ho, decide_eq_true hpay⟩
  intro hnil
  rw [hnil] at hmem
  exact List.not_mem_nil o hmem

/-- The selected outcome is one of the tie set (hence one of the four
candidate categories, and achieves the minimum payout). -/
theorem selectedOutcome_mem (sha32 : String → Nat) (gid gst : Option Nat)
    (t : BetTotals) :
    selectedOutcome sha32 gid gst t ∈ minPayoutOutcomes t := by
  have hpos : 0 < (minPayoutOutcomes t).length :=
    List.length_pos.mpr (minPayoutOutcomes_ne_nil t)
  simp only [selectedOutcome]
  split
  · exact getD_mem_of_lt _ 0 _ hpos
  · exact getD_mem_of_lt _ _ _ (Nat.mod_lt _ hpos)

/-- Every number list attached to a candidate category has six elements and
excludes 7. -/
theorem outcomesFor_validNumbers (t : BetTotals) :
    ∀ o ∈ outcomesFor t,
      o.validNumbers.length = 6 ∧ ∀ n ∈ o.validNumbers, n ≠ 7 := by
  intro o ho
  simp only [outcomesFor, List.mem_cons, List.not_mem_nil, or_false] at ho
  rcases ho with h | h | h | h
  all_goals
    subst h
    refine ⟨rfl, ?_⟩
    intro n hn
    simp at hn
    omega

/-- C1, selector half: `generateSmartCard` never yields 7. -/
theorem generateSmartCard_number_ne_seven (sha32 : String → Nat)
    (room : GameRoomState) (rS rN : Nat) :
    (generateSmartCard sha32 room rS rN).number ≠ 7 := by
  simp only [generateSmartCard]
  split
  · show validNumbersNoBets.getD (rN % 12) 0 ≠ 7
    rcases getD_mem_or_default validNumbersNoBets (rN % 12) 0 with h | h
    · intro hc; rw [hc] at h; simp [validNumbersNoBets] at h
    · rw [h]; norm_num
  · show (selectedOutcome sha32 room.currentGameId room.gameStartTime
        (betTotals room.activeBets)).validNumbers.getD
        (rN % (selectedOutcome sha32 room.currentGameId room.gameStartTime
          (betTotals room.activeBets)).validNumbers.length) 0 ≠ 7
    set t := betTotals room.activeBets with ht
    set sel := selectedOutcome sha32 room.currentGameId room.gameStartTime t
      with hsel
    have hmem : sel ∈ minPayoutOutcomes t := selectedOutcome_mem _ _ _ _
    have hmem2 : sel ∈ outcomesFor t := (List.mem_filter.mp hmem).1
    have hvn := outcomesFor_validNumbers t sel hmem2
    rcases getD_mem_or_default sel.validNumbers
        (rN % sel.validNumbers.length) 0 with h | h
    · intro hc; rw [hc] at h; exact hvn.2 7 h rfl
    · rw [h]; norm_num

/-- C1, override half: `generateCardForResult 'lucky7'` always yields 7. -/
theorem generateCardForResult_lucky7 (rS rN : Nat) :
    (generateCardForResult "lucky7" rS rN).number = 7 := by
  simp [generateCardForResult]

/-- Numbers drawn from the shared 7-free pool are never 7. -/
theorem validNumbersNoBets_getD_ne_seven (i : Nat) :
    validNumbersNoBets.getD i 0 ≠ 7 := by
  rcases getD_mem_or_default validNumbersNoBets i 0 with h | h
  · intro hc; rw [hc] at h; simp [validNumbersNoBets] at h
  · rw [h]; norm_num

/-- Override results other than `'lucky7'` never materialize a 7. -/
theorem generateCardForResult_ne_seven (result : String)
    (h : result ≠ "lucky7") (rS rN : Nat) :
    (generateCardForResult result rS rN).number ≠ 7 := by
  simp only [generateCardForResult, apply_ite Card.number]
  split_ifs with h1 h2 h3 h4
  all_goals first
    | exact validNumbersNoBets_getD_ne_seven _
    | omega

/-- **C1**: For every state of the round's pending wagers, the automatic
outcome selection (`generateSmartCard`) never returns a card with number 7,
in both of its branches (no wagers at all, and payout-minimizing
selection); number 7 can be produced only by the admin-override path
(`generateCardForResult` with result `'lucky7'`). -/
theorem outcome_selector_never_rare (sha32 : String → Nat)
    (room : GameRoomState) (rS rN : Nat) :
    (generateSmartCard sha32 room rS rN).number ≠ 7 ∧
    (generateCardForResult "lucky7" rS rN).number = 7 ∧
    (∀ result : String, result ≠ "lucky7" →
      (generateCardForResult result rS rN).number ≠ 7) :=
  ⟨generateSmartCard_number_ne_seven sha32 room rS rN,
   generateCardForResult_lucky7 rS rN,
   fun result h => generateCardForResult_ne_seven result h rS rN⟩

/-- Witness for C1 at a concrete round state. -/
theorem outcome_selector_never_rare_witness :
    (generateSmartCard (fun _ => 0) exampleRoom 0 0).number ≠ 7 ∧
    (generateCardForResult "lucky7" 0 0).number = 7 ∧
    (generateCardForResult "red" 0 0).number ≠ 7 := by
  have h := outcome_selector_never_rare (fun _ => 0) exampleRoom 0 0
  exact ⟨h.1, h.2.1, h.2.2 "red" (by decide)⟩

/-! ## C2: payout-minimizing selection with deterministic tie-break -/

/-- Tie-breaking reads the round only through the seed `gid + gst`. -/
theorem selectedOutcome_seed_only (sha32 : String → Nat)
    (gid gst gid' gst' : Option Nat) (t : BetTotals)
    (h : gid.getD 0 + gst.getD 0 = gid'.getD 0 + gst'.getD 0) :
    selectedOutcome sha32 gid gst t = selectedOutcome sha32 gid' gst' t := by
  simp only [selectedOutcome]
  rw [h]

/-- Both branches collapse to `tieSet[(hash seed) % tieSet.length]`. -/
theorem selectedOutcome_eq_index (sha32 : String → Nat) (gid gst : Option Nat)
    (t : BetTotals) :
    selectedOutcome sha32 gid gst t =
      (minPayoutOutcomes t).getD
        (sha32 (toString (gid.getD 0 + gst.getD 0)) %
          (minPayoutOutcomes t).length) dummyOutcome := by
  simp only [selectedOutcome]
  split
  · next h1 => rw [h1, Nat.mod_one]
  · rfl

/-- The selected category belongs to the candidate set and minimizes the
payout over it. -/
theorem selectedOutcome_minimal (sha32 : String → Nat) (gid gst : Option Nat)
    (t : BetTotals) :
    selectedOutcome sha32 gid gst t ∈ outcomesFor t ∧
    ∀ o ∈ outcomesFor t,
      (selectedOutcome sha32 gid gst t).totalPayout ≤ o.totalPayout := by
  have hmem := selectedOutcome_mem sha32 gid gst t
  have h1 := (List.mem_filter.mp hmem).1
  have h2 : (selectedOutcome sha32 gid gst t).totalPayout = minPayout t :=
    of_decide_eq_true (List.mem_filter.mp hmem).2
  refine ⟨h1, fun o ho => ?_⟩
  rw [h2]
  exact minPayout_le t o.totalPayout (List.mem_map.mpr ⟨o, ho, rfl⟩)

/-- With pending wagers, the generated card realizes the selected
category: its colour matches and its number is drawn from the category's
number range. -/
theorem generateSmartCard_selected (sha32 : String → Nat)
    (room : GameRoomState) (rS rN : Nat)
    (htot : ¬((betTotals room.activeBets).low +
      (betTotals room.activeBets).high +
      (betTotals room.activeBets).lucky7 +
      (betTotals room.activeBets).red +
      (betTotals room.activeBets).black = 0)) :
    (generateSmartCard sha32 room rS rN).color =
      (selectedOutcome sha32 room.currentGameId room.gameStartTime
        (betTotals room.activeBets)).color ∧
    (generateSmartCard sha32 room rS rN).number ∈
      (selectedOutcome sha32 room.currentGameId room.gameStartTime
        (betTotals room.activeBets)).validNumbers := by
  simp only [generateSmartCard]
  rw [if_neg htot]
  refine ⟨rfl, ?_⟩
  set t := betTotals room.activeBets with ht
  set sel := selectedOutcome sha32 room.currentGameId room.gameStartTime t
    with hsel
  have hmem2 : sel ∈ outcomesFor t :=
    (List.mem_filter.mp (selectedOutcome_mem _ _ _ _)).1
  have hlen := (outcomesFor_validNumbers t sel hmem2).1
  exact getD_mem_of_lt _ _ _ (Nat.mod_lt _ (by rw [hlen]; norm_num))

/-- The four candidate payouts are exactly the spec's formulas. -/
theorem outcomesFor_payouts (t : BetTotals) :
    (outcomesFor t).map (fun o => (o.type, o.totalPayout)) =
      [("red-low", (t.red + t.low) * 2), ("red-high", (t.red + t.high) * 2),
       ("black-low", (t.black + t.low) * 2),
       ("black-high", (t.black + t.high) * 2)] := by
  simp [outcomesFor]
  omega

/-- **C2**: When at least one wager is pending, the selected outcome
category is the minimum-total-payout category among the four categories
with payouts 2·(red+low), 2·(red+high), 2·(black+low), 2·(black+high);
ties are broken deterministically by hashing the seed
`currentGameId + gameStartTime` modulo the tie-set size into the stably
ordered tie-set (so identical inputs always yield the same category), and
stakes {low:100, high:0, red:50} select black-high. -/
theorem minimum_payout_selection (sha32 : String → Nat)
    (room : GameRoomState) (rS rN : Nat)
    (htot : ¬((betTotals room.activeBets).low +
      (betTotals room.activeBets).high +
      (betTotals room.activeBets).lucky7 +
      (betTotals room.activeBets).red +
      (betTotals room.activeBets).black = 0)) :
    ((outcomesFor (betTotals room.activeBets)).map
        (fun o => (o.type, o.totalPayout)) =
      [("red-low", ((betTotals room.activeBets).red +
          (betTotals room.activeBets).low) * 2),
       ("red-high", ((betTotals room.activeBets).red +
          (betTotals room.activeBets).high) * 2),
       ("black-low", ((betTotals room.activeBets).black +
          (betTotals room.activeBets).low) * 2),
       ("black-high", ((betTotals room.activeBets).black +
          (betTotals room.activeBets).high) * 2)]) ∧
    selectedOutcome sha32 room.currentGameId room.gameStartTime
        (betTotals room.activeBets) ∈
      outcomesFor (betTotals room.activeBets) ∧
    (∀ o ∈ outcomesFor (betTotals room.activeBets),
      (selectedOutcome sha32 room.currentGameId room.gameStartTime
        (betTotals room.activeBets)).totalPayout ≤ o.totalPayout) ∧
    (selectedOutcome sha32 room.currentGameId room.gameStartTime
        (betTotals room.activeBets) =
      (minPayoutOutcomes (betTotals room.activeBets)).getD
        (sha32 (toString (room.currentGameId.getD 0 +
            room.gameStartTime.getD 0)) %
          (minPayoutOutcomes (betTotals room.activeBets)).length)
        dummyOutcome) ∧
    (∀ gid gst gid' gst' : Option Nat,
      gid.getD 0 + gst.getD 0 = gid'.getD 0 + gst'.getD 0 →
      selectedOutcome sha32 gid gst (betTotals room.activeBets) =
        selectedOutcome sha32 gid' gst' (betTotals room.activeBets)) ∧
    (generateSmartCard sha32 room rS rN).color =
      (selectedOutcome sha32 room.currentGameId room.gameStartTime
        (betTotals room.activeBets)).color ∧
    (generateSmartCard sha32 room rS rN).number ∈
      (selectedOutcome sha32 room.currentGameId room.gameStartTime
        (betTotals room.activeBets)).validNumbers ∧
    (selectedOutcome sha32 room.currentGameId room.gameStartTime
        (betTotals exampleActiveBets)).type = "black-high" := by
  have hmin := selectedOutcome_minimal sha32 room.currentGameId
    room.gameStartTime (betTotals room.activeBets)
  have hcard := generateSmartCard_selected sha32 room rS rN htot
  exact ⟨outcomesFor_payouts _, hmin.1, hmin.2,
    selectedOutcome_eq_index _ _ _ _,
    fun gid gst gid' gst' h => selectedOutcome_seed_only _ _ _ _ _ _ h,
    hcard.1, hcard.2, rfl⟩

/-- Witness for C2 at the spec's worked example. -/
theorem minimum_payout_selection_witness :
    ¬((betTotals exampleRoom.activeBets).low +
      (betTotals exampleRoom.activeBets).high +
      (betTotals exampleRoom.activeBets).lucky7 +
      (betTotals exampleRoom.activeBets).red +
      (betTotals exampleRoom.activeBets).black = 0) ∧
    (selectedOutcome (fun _ => 0) exampleRoom.currentGameId
        exampleRoom.gameStartTime (betTotals exampleActiveBets)).type =
      "black-high" ∧
    (outcomesFor (betTotals exampleActiveBets)).map (·.totalPayout) =
      [300, 100, 200, 0] := by
  have h := minimum_payout_selection (fun _ => 0) exampleRoom 0 0 (by decide)
  exact ⟨by decide, h.2.2.2.2.2.2.2, by decide⟩

/-! ## C10: win conditions on the reserved value -/

/-- **C10**: a red or black wager wins iff the card's colour matches and
its number ≠ 7, low wins iff 1 ≤ number ≤ 6, high wins iff number ≥ 8,
lucky7 wins iff number = 7 — so on a revealed 7 every red, black, low and
high wager loses and only lucky7 wagers win, paid at 12×. -/
theorem win_condition_rare_value (card : Card) (i a : Nat) :
    (isBetWinner ⟨i, "red", a⟩ card = true ↔
      card.color = CardColor.red ∧ card.number ≠ 7) ∧
    (isBetWinner ⟨i, "black", a⟩ card = true ↔
      card.color = CardColor.black ∧ card.number ≠ 7) ∧
    (isBetWinner ⟨i, "low", a⟩ card = true ↔
      1 ≤ card.number ∧ card.number ≤ 6) ∧
    (isBetWinner ⟨i, "high", a⟩ card = true ↔ 8 ≤ card.number) ∧
    (isBetWinner ⟨i, "lucky7", a⟩ card = true ↔ card.number = 7) ∧
    (card.number = 7 →
      isBetWinner ⟨i, "red", a⟩ card = false ∧
      isBetWinner ⟨i, "black", a⟩ card = false ∧
      isBetWinner ⟨i, "low", a⟩ card = false ∧
      isBetWinner ⟨i, "high", a⟩ card = false ∧
      isBetWinner ⟨i, "lucky7", a⟩ card = true ∧
      calculateWinAmount ⟨i, "lucky7", a⟩ = 12 * a) := by
  refine ⟨by simp [isBetWinner], by simp [isBetWinner], by simp [isBetWinner],
    by simp [isBetWinner], by simp [isBetWinner], fun h7 => ?_⟩
  refine ⟨by simp [isBetWinner, h7], by simp [isBetWinner, h7],
    by simp [isBetWinner, h7], by simp [isBetWinner, h7],
    by simp [isBetWinner, h7],
    by simp [calculateWinAmount, payoutMultipliers, Nat.mul_comm]⟩

/-- Witness for C10 on a concrete red seven. -/
theorem win_condition_rare_value_witness :
    isBetWinner ⟨0, "red", 10⟩ ⟨7, Suit.hearts, CardColor.red, true⟩ = false ∧
    isBetWinner ⟨0, "lucky7", 10⟩ ⟨7, Suit.hearts, CardColor.red, true⟩ = true ∧
    calculateWinAmount ⟨0, "lucky7", 10⟩ = 120 := by
  have h := (win_condition_rare_value ⟨7, Suit.hearts, CardColor.red, true⟩
    0 10).2.2.2.2.2 rfl
  exact ⟨h.1, h.2.2.2.2.1, by decide⟩

/-! ## C3: idempotent settlement -/

/-- The processed-id set after the inner loop holds exactly the previously
processed ids plus this entry's ids. -/
theorem settleBetsAux_snd_mem (card : Card) (bets : List ActiveBet) :
    ∀ processed i, i ∈ (settleBetsAux card processed bets).2 ↔
      i ∈ bets.map (·.id) ∨ i ∈ processed := by
  induction bets with
  | nil => intro processed i; simp [settleBetsAux]
  | cons b rest ih =>
    intro processed i
    simp only [settleBetsAux]
    by_cases hb : b.id ∈ processed
    · rw [if_pos hb, ih processed i]
      simp only [List.map_cons, List.mem_cons]
      constructor
      · rintro (h | h)
        · exact Or.inl (Or.inr h)
        · exact Or.inr h
      · rintro ((rfl | h) | h)
        · exact Or.inr hb
        · exact Or.inl h
        · exact Or.inr h
    · rw [if_neg hb]
      rw [ih (b.id :: processed) i]
      simp only [List.map_cons, List.mem_cons]
      tauto

/-- The inner loop emits exactly the not-yet-processed ids of its entry. -/
theorem settleBetsAux_fst_mem (card : Card) (bets : List ActiveBet) :
    ∀ processed i,
      i ∈ (settleBetsAux card processed bets).1.map (·.betId) ↔
        (i ∈ bets.map (·.id) ∧ i ∉ processed) := by
  induction bets with
  | nil => intro processed i; simp [settleBetsAux]
  | cons b rest ih =>
    intro processed i
    simp only [settleBetsAux]
    by_cases hb : b.id ∈ processed
    · rw [if_pos hb, ih processed i]
      simp only [List.map_cons, List.mem_cons]
      constructor
      · rintro ⟨h, hnp⟩; exact ⟨Or.inr h, hnp⟩
      · rintro ⟨h | h, hnp⟩
        · subst h; exact absurd hb hnp
        · exact ⟨h, hnp⟩
    · rw [if_neg hb]
      simp only [List.map_cons, List.mem_cons]
      rw [ih (b.id :: processed) i]
      simp only [List.mem_cons]
      constructor
      · rintro (rfl | ⟨h, hnp⟩)
        · exact ⟨Or.inl rfl, hb⟩
        · exact ⟨Or.inr h, fun hp => hnp (Or.inr hp)⟩
      · rintro ⟨h | h, hnp⟩
        · exact Or.inl h
        · by_cases hib : i = b.id
          · exact Or.inl hib
          · exact Or.inr ⟨h, fun hc => hc.elim hib hnp⟩

/-- The inner loop never emits the same bet id twice. -/
theorem settleBetsAux_fst_nodup (card : Card) (bets : List ActiveBet) :
    ∀ processed,
      ((settleBetsAux card processed bets).1.map (·.betId)).Nodup := by
  induction bets with
  | nil => intro processed; simp [settleBetsAux]
  | cons b rest ih =>
    intro processed
    simp only [settleBetsAux]
    by_cases hb : b.id ∈ processed
    · rw [if_pos hb]; exact ih processed
    · rw [if_neg hb]
      simp only [List.map_cons]
      refine List.nodup_cons.mpr ⟨?_, ih _⟩
      intro hmem
      have hc := (settleBetsAux_fst_mem card rest (b.id :: processed) b.id).mp hmem
      exact hc.2 (List.mem_cons_self _ _)

/-- The outer loop emits exactly the not-yet-processed ids of the whole
wager index. -/
theorem settleEntries_mem (card : Card)
    (entries : List (String × List ActiveBet)) :
    ∀ processed i,
      i ∈ (settleEntries card processed entries).map (·.betId) ↔
        (i ∈ flatIds entries ∧ i ∉ processed) := by
  induction entries with
  | nil => intro processed i; simp [settleEntries, flatIds]
  | cons e rest ih =>
    intro processed i
    simp only [settleEntries, List.map_append, List.mem_append, flatIds]
    rw [settleBetsAux_fst_mem card e.2 processed i, ih _ i,
      settleBetsAux_snd_mem card e.2 processed i]
    tauto

/-- The outer loop never emits the same bet id twice. -/
theorem settleEntries_nodup (card : Card)
    (entries : List (String × List ActiveBet)) :
    ∀ processed,
      ((settleEntries card processed entries).map (·.betId)).Nodup := by
  induction entries with
  | nil => intro processed; simp [settleEntries]
  | cons e rest ih =>
    intro processed
    simp only [settleEntries, List.map_append]
    refine List.Nodup.append (settleBetsAux_fst_nodup card e.2 processed)
      (ih _) ?_
    intro i h1 h2
    have ha := (settleBetsAux_fst_mem card e.2 processed i).mp h1
    have hb := (settleEntries_mem card rest _ i).mp h2
    exact hb.2 ((settleBetsAux_snd_mem card e.2 processed i).mpr (Or.inl ha.1))

/-- **C3**: During settlement, every bet id occurring in the round's wager
index is resolved at most once — a single resolution is emitted for it —
even when the same bet id appears under more than one connection entry,
because processed bet ids are tracked in a per-settlement set. -/
theorem settlement_idempotent (card : Card)
    (activeBets : List (String × List ActiveBet)) :
    ((resolveBetsList card activeBets).map (·.betId)).Nodup ∧
    (∀ i, i ∈ (resolveBetsList card activeBets).map (·.betId) ↔
      i ∈ flatIds activeBets) ∧
    (∀ i, i ∈ flatIds activeBets →
      ((resolveBetsList card activeBets).map (·.betId)).count i = 1) := by
  have hnd := settleEntries_nodup card activeBets []
  refine ⟨hnd, fun i => ?_, fun i hi => ?_⟩
  · simp only [resolveBetsList]
    rw [settleEntries_mem card activeBets [] i]
    simp
  · refine List.count_eq_one_of_mem hnd ?_
    simp only [resolveBetsList]
    rw [settleEntries_mem card activeBets [] i]
    simp [hi]

/-- Witness for C3: a duplicated index entry still settles once. -/
theorem settlement_idempotent_witness :
    ((resolveBetsList ⟨5, Suit.hearts, CardColor.red, true⟩ dupIndex).map
      (·.betId)).count 10 = 1 := by
  have h := settlement_idempotent ⟨5, Suit.hearts, CardColor.red, true⟩ dupIndex
  exact h.2.2 10 (by decide)

/-! ## C6: no card leaks during countdown -/

/-- `sanitizeRoomForBroadcast` yields no card outside `playing`. -/
theorem sanitize_hides_unrevealed (room : GameRoomState)
    (h : room.status ≠ RoomStatus.playing) :
    (sanitizeRoomForBroadcast room).currentCard = none := by
  simp only [sanitizeRoomForBroadcast]
  cases hc : room.currentCard with
  | none => rfl
  | some c => exact if_neg (fun hx => h hx.1)

/-- **C6**: No payload broadcast while the round is in countdown contains
the generated card: the sanitizer nulls the card whenever the status is
not `playing` or the card is unrevealed, the countdown-tick payload is
sanitized (even after the card materializes at the 10-seconds mark), and
the game-starting payload is sanitized. -/
theorem countdown_broadcasts_hide_card (room : GameRoomState)
    (sha32 : String → Nat) (rS rN now gameId : Nat) :
    (room.status ≠ RoomStatus.playing →
      (sanitizeRoomForBroadcast room).currentCard = none) ∧
    (∀ c, room.currentCard = some c → c.revealed = false →
      (sanitizeRoomForBroadcast room).currentCard = none) ∧
    (room.status = RoomStatus.countdown →
      ((countdownTick sha32 rS rN room).2.2).currentCard = none) ∧
    ((startGameUpdate room now gameId).2).currentCard = none := by
  refine ⟨sanitize_hides_unrevealed room, ?_, ?_, rfl⟩
  · intro c hc hrev
    simp only [sanitizeRoomForBroadcast, hc]
    exact if_neg (fun hx => by rw [hrev] at hx; exact absurd hx.2 (by simp))
  · intro hcd
    apply sanitize_hides_unrevealed
    split
    · show room.status ≠ RoomStatus.playing
      rw [hcd]; decide
    · show room.status ≠ RoomStatus.playing
      rw [hcd]; decide

/-- Witness for C6: during countdown with a materialized unrevealed card,
the sanitized room and the tick payload both hide it. -/
theorem countdown_broadcasts_hide_card_witness :
    (sanitizeRoomForBroadcast cdRoom).currentCard = none ∧
    ((countdownTick (fun _ => 0) 0 0 cdRoom).2.2).currentCard = none := by
  have h := countdown_broadcasts_hide_card cdRoom (fun _ => 0) 0 0 0 1
  exact ⟨h.1 (by decide), h.2.2.1 rfl⟩

/-! ## C9: reveal with no materialized outcome -/

/-- **C9 counterexample**: at a reveal instant with no materialized
outcome, `revealCard` synthesizes nothing and resolves nothing — it
returns with the state unchanged (still not `playing`, wagers still
pending), refuting the claimed fallback synthesis. -/
theorem revealCard_no_fallback_counterexample :
    revealCard noCardState 0 0 = (noCardState, none) ∧
    noCardState.room.currentCard = none ∧
    noCardState.room.activeBets ≠ [] ∧
    (revealCard noCardState 0 0).1.room.status ≠ RoomStatus.playing ∧
    (revealCard noCardState 0 0).2 = none := by
  refine ⟨rfl, rfl, by decide, by decide, rfl⟩

/-- **C9 (amended)**: If reveal time is reached while no outcome has been
materialized, `revealCard` returns immediately: no fallback outcome is
synthesized, the state is unchanged, and the round's wagers stay
unresolved. -/
theorem revealCard_no_outcome_aborts (s : SysState) (rS rN : Nat)
    (h : s.room.currentCard = none) :
    revealCard s rS rN = (s, none) := by
  simp only [revealCard, h]

/-- Witness for the amended C9. -/
theorem revealCard_no_outcome_aborts_witness :
    noCardState.room.currentCard = none ∧
    revealCard noCardState 1 1 = (noCardState, none) :=
  ⟨rfl, revealCard_no_outcome_aborts noCardState 1 1 rfl⟩

/-! ## Association-list lemmas (JS `Map` semantics) -/

section AssocLemmas

variable {α β : Type} [DecidableEq α]

theorem alookup_aset_self (m : List (α × β)) (k : α) (v : β) :
    alookup (aset m k v) k = some v := by
  induction m with
  | nil => simp [aset, alookup]
  | cons p rest ih =>
    by_cases hp : p.1 = k
    · simp [aset, alookup, hp]
    · simp [aset, alookup, hp, ih]

theorem alookup_aset_ne (m : List (α × β)) (k k' : α) (v : β)
    (hne : k' ≠ k) : alookup (aset m k v) k' = alookup m k' := by
  induction m with
  | nil => simp [aset, alookup, Ne.symm hne]
  | cons p rest ih =>
    by_cases hp : p.1 = k
    · simp [aset, alookup, hp, Ne.symm hne]
    · simp [aset, alookup, hp, ih]

theorem alookup_adel_self (m : List (α × β)) (k : α) :
    alookup (adel m k) k = none := by
  induction m with
  | nil => simp [adel, alookup]
  | cons p rest ih =>
    by_cases hp : p.1 = k
    · simp [adel, hp, ih]
    · simp [adel, alookup, hp, ih]

theorem alookup_adel_ne (m : List (α × β)) (k k' : α) (hne : k' ≠ k) :
    alookup (adel m k) k' = alookup m k' := by
  induction m with
  | nil => simp [adel]
  | cons p rest ih =>
    by_cases hp : p.1 = k
    · simp [adel, alookup, hp, ih, Ne.symm hne]
    · simp [adel, alookup, hp, ih]

theorem mem_adel_elim {m : List (α × β)} {k : α} {e : α × β}
    (h : e ∈ adel m k) : e ∈ m ∧ e.1 ≠ k := by
  induction m with
  | nil => simp [adel] at h
  | cons p rest ih =>
    simp only [adel] at h
    by_cases hp : p.1 = k
    · rw [if_pos hp] at h
      rcases ih h with ⟨hm, hne⟩
      exact ⟨List.mem_cons_of_mem _ hm, hne⟩
    · rw [if_neg hp] at h
      rcases List.mem_cons.mp h with rfl | h2
      · exact ⟨List.mem_cons_self _ _, hp⟩
      · rcases ih h2 with ⟨hm, hne⟩
        exact ⟨List.mem_cons_of_mem _ hm, hne⟩

theorem mem_aset_elim {m : List (α × β)} {k : α} {v : β} {e : α × β}
    (hk : (m.map (·.1)).Nodup) (h : e ∈ aset m k v) :
    e = (k, v) ∨ (e ∈ m ∧ e.1 ≠ k) := by
  induction m with
  | nil =>
    simp [aset] at h
    exact Or.inl h
  | cons p rest ih =>
    simp only [List.map_cons, List.nodup_cons] at hk
    simp only [aset] at h
    by_cases hp : p.1 = k
    · rw [if_pos hp] at h
      rcases List.mem_cons.mp h with rfl | h2
      · exact Or.inl rfl
      · right
        refine ⟨List.mem_cons_of_mem _ h2, fun he => ?_⟩
        rw [hp] at hk
        exact hk.1 (he ▸ List.mem_map.mpr ⟨e, h2, rfl⟩)
    · rw [if_neg hp] at h
      rcases List.mem_cons.mp h with rfl | h2
      · exact Or.inr ⟨List.mem_cons_self _ _, hp⟩
      · rcases ih hk.2 h2 with h3 | ⟨hm, hne⟩
        · exact Or.inl h3
        · exact Or.inr ⟨List.mem_cons_of_mem _ hm, hne⟩

theorem alookup_none_key {m : List (α × β)} {k : α}
    (h : alookup m k = none) : ∀ e ∈ m, e.1 ≠ k := by
  induction m with
  | nil => intro e he; simp at he
  | cons p rest ih =>
    simp only [alookup] at h
    by_cases hp : p.1 = k
    · rw [if_pos hp] at h; exact Option.noConfusion h
    · rw [if_neg hp] at h
      intro e he
      rcases List.mem_cons.mp he with rfl | he2
      · exact hp
      · exact ih h e he2

theorem alookup_mem {m : List (α × β)} {k : α} {v : β}
    (h : alookup m k = some v) : (k, v) ∈ m := by
  induction m with
  | nil => simp [alookup] at h
  | cons p rest ih =>
    simp only [alookup] at h
    by_cases hp : p.1 = k
    · rw [if_pos hp] at h
      injection h with h
      have hpv : (k, v) = p := by rw [← hp, ← h]
      exact List.mem_cons.mpr (Or.inl hpv)
    · rw [if_neg hp] at h
      exact List.mem_cons_of_mem _ (ih h)

end AssocLemmas

theorem flatIds_mem (m : List (String × List ActiveBet)) (i : Nat) :
    i ∈ flatIds m ↔ ∃ e ∈ m, i ∈ e.2.map (·.id) := by
  induction m with
  | nil => simp [flatIds]
  | cons e rest ih =>
    simp only [flatIds, List.mem_append, ih, List.mem_cons]
    constructor
    · rintro (h | ⟨x, hx, hi⟩)
      · exact ⟨e, Or.inl rfl, h⟩
      · exact ⟨x, Or.inr hx, hi⟩
    · rintro ⟨x, rfl | hx, hi⟩
      · exact Or.inl hi
      · exact Or.inr ⟨x, hx, hi⟩

/-! ## C7: exclusive locking -/

/-- **C7**: `lock-bet` moves all of the connection's unlocked wagers into
the locked partition keyed by the account's database identity, and is
rejected with an error and no state change whenever locked wagers already
exist for that account, the betting window is closed, or there are no
unlocked bets to lock. -/
theorem lock_bet_exclusive (s : SysState) (socketId : String)
    (player : RoomPlayer) (pid : Nat)
    (hfind : s.room.players.find?
      (fun p => decide (p.socketId = socketId)) = some player)
    (hdbid : player.dbId = some pid) :
    (∀ s' e, handleLockBet s socketId = (s', some e) → s' = s) ∧
    ((handleLockBet s socketId).2 = none ↔
      (s.room.status = RoomStatus.countdown ∧ 10 < s.room.countdownTime ∧
       alookup s.lockedBets pid = none ∧
       ∃ ubets, alookup s.unlockedBets socketId = some ubets ∧ ubets ≠ [])) ∧
    (∀ ubets, alookup s.unlockedBets socketId = some ubets → ubets ≠ [] →
      s.room.status = RoomStatus.countdown → 10 < s.room.countdownTime →
      alookup s.lockedBets pid = none →
      handleLockBet s socketId =
        ({ s with lockedBets := aset s.lockedBets pid ubets,
                  unlockedBets := adel s.unlockedBets socketId }, none) ∧
      alookup (aset s.lockedBets pid ubets) pid = some ubets ∧
      alookup (adel s.unlockedBets socketId) socketId = none) := by
  refine ⟨?_, ?_, ?_⟩
  · intro s' e h
    simp only [handleLockBet, hfind, hdbid] at h
    split at h
    · injection h with h1 _; exact h1.symm
    · split at h
      · injection h with h1 _; exact h1.symm
      · split at h
        · injection h with h1 _; exact h1.symm
        · split at h
          · injection h with h1 _; exact h1.symm
          · injection h with _ h2; exact Option.noConfusion h2
  · simp only [handleLockBet, hfind, hdbid]
    split
    · next hw =>
      constructor
      · intro hc
        exact absurd hc (by simp)
      · rintro ⟨h1, h2, _⟩
        rcases hw with hw | hw
        · exact absurd h1 hw
        · omega
    · next hw =>
      push_neg at hw
      split
      · next hl =>
        constructor
        · intro hc
          exact absurd hc (by simp)
        · rintro ⟨_, _, h3, _⟩
          rw [h3] at hl
          simp at hl
      · next hl =>
        split
        · next hub =>
          constructor
          · intro hc
            exact absurd hc (by simp)
          · rintro ⟨_, _, _, ub, hu, _⟩
            rw [hub] at hu
            exact Option.noConfusion hu
        · next ubets hub =>
          split
          · next he =>
            constructor
            · intro hc
              exact absurd hc (by simp)
            · rintro ⟨_, _, _, ub, hu, hne⟩
              rw [hub] at hu
              injection hu with hu
              subst hu
              simp at he
              exact absurd he hne
          · next he =>
            constructor
            · intro _
              refine ⟨hw.1, hw.2, Option.not_isSome_iff_eq_none.mp hl, ubets,
                hub, fun hnil => he ?_⟩
              rw [hnil]
              rfl
            · intro _
              rfl
  · intro ubets hub hne hst htime hlnone
    have hefalse : ¬ubets.isEmpty = true := by
      cases ubets with
      | nil => exact absurd rfl hne
      | cons a b => simp
    refine ⟨?_, alookup_aset_self _ _ _, alookup_adel_self _ _⟩
    simp only [handleLockBet, hfind, hdbid]
    rw [if_neg (by push_neg; exact ⟨hst, htime⟩ :
      ¬(s.room.status ≠ RoomStatus.countdown ∨ s.room.countdownTime ≤ 10))]
    rw [if_neg (by rw [hlnone]; simp :
      ¬(alookup s.lockedBets pid).isSome = true)]
    split
    · next heq =>
      rw [hub] at heq
      exact Option.noConfusion heq
    · next bts heq =>
      rw [hub] at heq
      injection heq with heq
      subst heq
      rw [if_neg hefalse]

/-! ## C4: place-bet validation and atomic debit -/

/-- Updating a row's chips is visible to the next lookup of that row. -/
theorem getPlayer_update (db : List DbPlayer) (pid c : Nat) (p : DbPlayer)
    (h : getPlayer db pid = some p) :
    getPlayer (updatePlayerChips db pid c) pid = some { p with chips := c } := by
  induction db with
  | nil => simp [getPlayer] at h
  | cons q rest ih =>
    simp only [getPlayer] at h
    by_cases hq : q.id = pid
    · rw [if_pos hq] at h
      injection h with h
      subst h
      simp [getPlayer, updatePlayerChips, hq]
    · rw [if_neg hq] at h
      simp [getPlayer, updatePlayerChips, hq, ih h]

/-- **C4**: `place-bet` is rejected with an error and no state change
unless the round is in countdown with more than 10 seconds remaining, the
bet type is one of the five legal types, and 0 < stake ≤ the account's
balance; on success the stake is debited exactly once in the row-locked
transaction (no partial debit, balance never negative) and the pending
wager is created and mirrored into the round's wager index. -/
theorem place_bet_guarded (s : SysState) (socketId betType : String)
    (amount : Nat) :
    (∀ s' e, handlePlaceBet s socketId betType amount = (s', some e) →
      s' = s) ∧
    (∀ s', handlePlaceBet s socketId betType amount = (s', none) →
      s.room.status = RoomStatus.countdown ∧ 10 < s.room.countdownTime ∧
      betType ∈ validBetTypes ∧ 0 < amount ∧
      ∃ player pid dbPlayer,
        s.room.players.find? (fun p => decide (p.socketId = socketId)) =
          some player ∧
        player.dbId = some pid ∧
        getPlayer s.dbPlayers pid = some dbPlayer ∧
        amount ≤ dbPlayer.chips ∧
        getPlayer s'.dbPlayers pid =
          some { dbPlayer with chips := dbPlayer.chips - amount } ∧
        dbPlayer.chips - amount + amount = dbPlayer.chips ∧
        alookup s'.unlockedBets socketId =
          some ((alookup s.unlockedBets socketId).getD [] ++
            [⟨betType, amount, s.nextBetId⟩]) ∧
        alookup s'.room.activeBets socketId =
          some ((alookup s.room.activeBets socketId).getD [] ++
            [⟨s.nextBetId, betType, amount⟩])) := by
  constructor
  · intro s' e h
    simp only [handlePlaceBet] at h
    split at h
    · injection h with h1 _; exact h1.symm
    · split at h
      · injection h with h1 _; exact h1.symm
      · split at h
        · injection h with h1 _; exact h1.symm
        · split at h
          · injection h with h1 _; exact h1.symm
          · split at h
            · injection h with h1 _; exact h1.symm
            · split at h
              · injection h with h1 _; exact h1.symm
              · split at h
                · injection h with h1 _; exact h1.symm
                · split at h
                  · injection h with h1 _; exact h1.symm
                  · injection h with _ h2
                    exact Option.noConfusion h2
  · intro s' h
    simp only [handlePlaceBet] at h
    split at h
    · exact Option.noConfusion (congrArg Prod.snd h)
    · rename_i hw
      split at h
      · exact Option.noConfusion (congrArg Prod.snd h)
      · rename_i player heqP
        split at h
        · exact Option.noConfusion (congrArg Prod.snd h)
        · rename_i pid heqD
          split at h
          · exact Option.noConfusion (congrArg Prod.snd h)
          · rename_i dbPlayer heqG
            split at h
            · exact Option.noConfusion (congrArg Prod.snd h)
            · rename_i hbt
              split at h
              · exact Option.noConfusion (congrArg Prod.snd h)
              · rename_i ham
                split at h
                · exact Option.noConfusion (congrArg Prod.snd h)
                · rename_i gid heqGid
                  split at h
                  · exact Option.noConfusion (congrArg Prod.snd h)
                  · rename_i s1 betId heqS
                    simp only [storagePlaceBet] at heqS
                    split at heqS
                    · exact Option.noConfusion heqS
                    · rename_i p heqG2
                      rw [heqG] at heqG2
                      injection heqG2 with heqG2
                      subst heqG2
                      split at heqS
                      · exact Option.noConfusion heqS
                      · rename_i hins
                        injection heqS with heqS
                        injection heqS with hS1 hBid
                        subst hS1
                        subst hBid
                        injection h with h1 _
                        subst h1
                        push_neg at hw ham
                        refine ⟨hw.1, hw.2, not_not.mp hbt,
                          Nat.pos_of_ne_zero ham.1, player, pid, dbPlayer,
                          heqP, heqD, heqG, ham.2, ?_, by omega, ?_, ?_⟩
                        · exact getPlayer_update _ _ _ _ heqG
                        · exact alookup_aset_self _ _ _
                        · exact alookup_aset_self _ _ _

/-- Witness for C4: a successful placement at `witState` implies the open
window and validity facts. -/
theorem place_bet_guarded_witness :
    witState.room.status = RoomStatus.countdown ∧
    (0 : Nat) < 50 ∧ "red" ∈ validBetTypes := by
  have h := (place_bet_guarded witState "s1" "red" 50).2
    (handlePlaceBet witState "s1" "red" 50).1 (by decide)
  exact ⟨h.1, h.2.2.2.1, h.2.2.1⟩

/-! ## C8: cancellation of the two partitions -/

/-- Deleted wager rows vanish from the store. -/
theorem deleteBet_ids (db : List DbBet) (bid i : Nat) :
    i ∈ (deleteBet db bid).map (·.id) ↔ i ∈ db.map (·.id) ∧ i ≠ bid := by
  induction db with
  | nil => simp [deleteBet]
  | cons b rest ih =>
    simp only [deleteBet]
    by_cases hb : b.id = bid
    · rw [if_pos hb, ih]
      simp only [List.map_cons, List.mem_cons]
      constructor
      · rintro ⟨h1, h2⟩; exact ⟨Or.inr h1, h2⟩
      · rintro ⟨h1 | h1, h2⟩
        · exact absurd (h1.trans hb) h2
        · exact ⟨h1, h2⟩
    · rw [if_neg hb]
      simp only [List.map_cons, List.mem_cons]
      rw [ih]
      constructor
      · rintro (rfl | ⟨h1, h2⟩)
        · exact ⟨Or.inl rfl, fun he => hb (he ▸ rfl)⟩
        · exact ⟨Or.inr h1, h2⟩
      · rintro ⟨rfl | h1, h2⟩
        · exact Or.inl rfl
        · exact Or.inr ⟨h1, h2⟩

/-- Folding `deleteBet` over a batch removes exactly the batch. -/
theorem deleteBetsFold_ids (tbets : List TrackedBet) :
    ∀ (db : List DbBet) (i : Nat),
      i ∈ ((tbets.foldl (fun d tb => deleteBet d tb.betId) db).map (·.id)) ↔
        (i ∈ db.map (·.id) ∧ i ∉ tbets.map (·.betId)) := by
  induction tbets with
  | nil => intro db i; simp
  | cons tb rest ih =>
    intro db i
    simp only [List.foldl_cons]
    rw [ih (deleteBet db tb.betId) i, deleteBet_ids]
    simp only [List.map_cons, List.mem_cons]
    tauto

/-- Removing the first id-match from a duplicate-free entry removes that
id and nothing else. -/
theorem removeFirstBet_ids (e : List ActiveBet) (bid : Nat)
    (h : (e.map (·.id)).Nodup) (i : Nat) :
    i ∈ (removeFirstBet e bid).map (·.id) ↔
      i ∈ e.map (·.id) ∧ i ≠ bid := by
  induction e with
  | nil => simp [removeFirstBet]
  | cons b rest ih =>
    simp only [List.map_cons, List.nodup_cons] at h
    simp only [removeFirstBet]
    by_cases hb : b.id = bid
    · rw [if_pos hb]
      simp only [List.map_cons, List.mem_cons]
      constructor
      · intro hi
        refine ⟨Or.inr hi, fun he => h.1 ?_⟩
        rw [hb, ← he]
        exact hi
      · rintro ⟨h1 | h1, hne⟩
        · exact absurd (h1.trans hb) hne
        · exact h1
    · rw [if_neg hb]
      simp only [List.map_cons, List.mem_cons]
      rw [ih h.2]
      constructor
      · rintro (rfl | ⟨h1, hne⟩)
        · exact ⟨Or.inl rfl, fun he => hb (he ▸ rfl)⟩
        · exact ⟨Or.inr h1, hne⟩
      · rintro ⟨rfl | h1, hne⟩
        · exact Or.inl rfl
        · exact Or.inr ⟨h1, hne⟩

/-- Removing the first id-match keeps the entry duplicate-free. -/
theorem removeFirstBet_nodup (e : List ActiveBet) (bid : Nat)
    (h : (e.map (·.id)).Nodup) :
    ((removeFirstBet e bid).map (·.id)).Nodup := by
  induction e with
  | nil => simp [removeFirstBet]
  | cons b rest ih =>
    simp only [List.map_cons, List.nodup_cons] at h
    simp only [removeFirstBet]
    by_cases hb : b.id = bid
    · rw [if_pos hb]; exact h.2
    · rw [if_neg hb]
      simp only [List.map_cons]
      refine List.nodup_cons.mpr ⟨?_, ih h.2⟩
      intro hmem
      exact h.1 ((removeFirstBet_ids rest bid h.2 b.id).mp hmem).1

/-- The index-removal loop removes exactly the batch's ids from a
duplicate-free entry. -/
theorem cancelBetsFromIndex_ids (tbets : List TrackedBet) :
    ∀ (e : List ActiveBet), (e.map (·.id)).Nodup → ∀ i,
      i ∈ (cancelBetsFromIndex e tbets).map (·.id) ↔
        (i ∈ e.map (·.id) ∧ i ∉ tbets.map (·.betId)) := by
  induction tbets with
  | nil => intro e he i; simp [cancelBetsFromIndex]
  | cons tb rest ih =>
    intro e he i
    simp only [cancelBetsFromIndex]
    rw [ih (removeFirstBet e tb.betId) (removeFirstBet_nodup e tb.betId he) i,
      removeFirstBet_ids e tb.betId he i]
    simp only [List.map_cons, List.mem_cons]
    tauto

/-- `cancelAndRefund` leaves the locked partition alone. -/
theorem cancelAndRefund_lockedBets (s : SysState) (k : String)
    (pid : Option Nat) (tb : List TrackedBet) (rc : Bool) :
    (cancelAndRefund s k pid tb rc).lockedBets = s.lockedBets := rfl

/-- `cancelAndRefund` leaves the unlocked partition map alone (the callers
delete the key themselves). -/
theorem cancelAndRefund_unlockedBets (s : SysState) (k : String)
    (pid : Option Nat) (tb : List TrackedBet) (rc : Bool) :
    (cancelAndRefund s k pid tb rc).unlockedBets = s.unlockedBets := rfl

/-- `cancelAndRefund` credits the whole refund to the account row. -/
theorem cancelAndRefund_dbPlayers (s : SysState) (k : String) (pid : Nat)
    (tb : List TrackedBet) (dbp : DbPlayer)
    (hgp : getPlayer s.dbPlayers pid = some dbp) :
    getPlayer (cancelAndRefund s k (some pid) tb true).dbPlayers pid =
      some { dbp with chips := dbp.chips + totalRefund tb } := by
  simp only [cancelAndRefund, hgp]
  exact getPlayer_update _ _ _ _ hgp

/-- `cancelAndRefund` deletes exactly the batch's wager rows. -/
theorem cancelAndRefund_dbBets (s : SysState) (k : String)
    (pid : Option Nat) (tb : List TrackedBet) (rc : Bool) (i : Nat) :
    i ∈ (cancelAndRefund s k pid tb rc).dbBets.map (·.id) ↔
      (i ∈ s.dbBets.map (·.id) ∧ i ∉ tb.map (·.betId)) := by
  simp only [cancelAndRefund]
  exact deleteBetsFold_ids tb s.dbBets i

/-- `cancelAndRefund` removes exactly the batch's ids from the
connection's wager-index entry. -/
theorem cancelAndRefund_entry (s : SysState) (k : String)
    (pid : Option Nat) (tb : List TrackedBet) (rc : Bool)
    (hnodup : (((alookup s.room.activeBets k).getD []).map (·.id)).Nodup)
    (i : Nat) :
    i ∈ ((alookup (cancelAndRefund s k pid tb rc).room.activeBets k).getD
        []).map (·.id) ↔
      (i ∈ ((alookup s.room.activeBets k).getD []).map (·.id) ∧
        i ∉ tb.map (·.betId)) := by
  simp only [cancelAndRefund]
  rcases halb : alookup s.room.activeBets k with _ | entry
  · simp only [halb, Option.getD_none]
    simp
  · rw [halb] at hnodup
    simp only [Option.getD_some] at hnodup
    simp only [halb, Option.getD_some]
    by_cases hemp : (cancelBetsFromIndex entry tb).isEmpty
    · rw [if_pos hemp, alookup_adel_self]
      simp only [Option.getD_none, List.map_nil, List.not_mem_nil,
        false_iff]
      rintro ⟨h1, h2⟩
      have hmem := (cancelBetsFromIndex_ids tb entry hnodup i).mpr ⟨h1, h2⟩
      rcases hcc : cancelBetsFromIndex entry tb with _ | ⟨a, b⟩
      · rw [hcc] at hmem; simp at hmem
      · rw [hcc] at hemp; simp at hemp
    · rw [if_neg hemp, alookup_aset_self]
      simp only [Option.getD_some]
      exact cancelBetsFromIndex_ids tb entry hnodup i

/-- `cancelAndRefund` does not touch other connections' index entries. -/
theorem cancelAndRefund_other (s : SysState) (k : String)
    (pid : Option Nat) (tb : List TrackedBet) (rc : Bool) (sid : String)
    (hne : sid ≠ k) :
    alookup (cancelAndRefund s k pid tb rc).room.activeBets sid =
      alookup s.room.activeBets sid := by
  simp only [cancelAndRefund]
  rcases halb : alookup s.room.activeBets k with _ | entry
  · simp only [halb]
  · simp only [halb]
    by_cases hemp : (cancelBetsFromIndex entry tb).isEmpty
    · rw [if_pos hemp, alookup_adel_ne _ _ _ hne]
    · rw [if_neg hemp, alookup_aset_ne _ _ _ _ hne]

/-- Error paths of the locked-cancel handler change nothing. -/
theorem handleCancelLockedBets_error (s : SysState) (socketId : String) :
    ∀ s' e, handleCancelLockedBets s socketId = (s', some e) → s' = s := by
  intro s' e h
  simp only [handleCancelLockedBets] at h
  split at h
  · injection h with h1 _; exact h1.symm
  · split at h
    · injection h with h1 _; exact h1.symm
    · split at h
      · injection h with h1 _; exact h1.symm
      · split at h
        · injection h with h1 _; exact h1.symm
        · injection h with _ h2; exact Option.noConfusion h2

/-- **C8 counterexample**: with the betting window closed (round already
`playing`), cancelling the unlocked partition still succeeds and refunds —
there is no window check in `handleCancelBet`, refuting the claimed
rejection. -/
theorem cancel_no_window_check_counterexample :
    playingState.room.status ≠ RoomStatus.countdown ∧
    playingState.room.countdownTime ≤ 10 ∧
    (handleCancelBet playingState "s1" false).2 = none ∧
    (handleCancelBet playingState "s1" false).1 ≠ playingState ∧
    getPlayer (handleCancelBet playingState "s1" false).1.dbPlayers 1 =
      some ⟨1, 200, 0, 0⟩ := by
  refine ⟨by decide, by decide, by decide, by decide, by decide⟩

/-- **C8 (amended)**: `cancel-bet` on the unlocked partition deletes each
targeted wager, credits its stake back, and removes it from the round's
wager index; it is rejected when the targeted partition is empty or when
locked wagers exist for the account — but no betting-window check is
performed, so unlocked cancellation succeeds regardless of round status;
cancelling the locked partition is likewise allowed at any time before
reveal (rejected only when empty). -/
theorem cancel_bet_partitions (s : SysState) (socketId : String)
    (player : RoomPlayer) (pid : Nat) (dbp : DbPlayer)
    (hfind : s.room.players.find?
      (fun p => decide (p.socketId = socketId)) = some player)
    (hdbid : player.dbId = some pid)
    (hgp : getPlayer s.dbPlayers pid = some dbp)
    (hnodup : (((alookup s.room.activeBets socketId).getD []).map
      (·.id)).Nodup) :
    (∀ s' e cl, handleCancelBet s socketId cl = (s', some e) → s' = s) ∧
    ((handleCancelBet s socketId false).2 = none ↔
      (alookup s.lockedBets pid = none ∧
       ∃ ubets, alookup s.unlockedBets socketId = some ubets ∧
         ubets ≠ [])) ∧
    (∀ s' ubets, alookup s.unlockedBets socketId = some ubets →
      handleCancelBet s socketId false = (s', none) →
      (getPlayer s'.dbPlayers pid =
        some { dbp with chips := dbp.chips + totalRefund ubets } ∧
       (∀ tb ∈ ubets, tb.betId ∉ s'.dbBets.map (·.id)) ∧
       (∀ tb ∈ ubets, tb.betId ∉
         ((alookup s'.room.activeBets socketId).getD []).map (·.id)) ∧
       alookup s'.unlockedBets socketId = none)) ∧
    ((handleCancelBet s socketId true).2 = none ↔
      ∃ lbets, alookup s.lockedBets pid = some lbets ∧ lbets ≠ []) := by
  refine ⟨?_, ?_, ?_, ?_⟩
  · intro s' e cl h
    simp only [handleCancelBet] at h
    split at h
    · injection h with h1 _; exact h1.symm
    · split at h
      · injection h with h1 _; exact h1.symm
      · split at h
        · exact handleCancelLockedBets_error s socketId s' e h
        · split at h
          · injection h with h1 _; exact h1.symm
          · split at h
            · injection h with h1 _; exact h1.symm
            · split at h
              · injection h with h1 _; exact h1.symm
              · injection h with _ h2; exact Option.noConfusion h2
  · simp only [handleCancelBet, hfind, hdbid, Bool.false_eq_true, if_false]
    split
    · next hl =>
      constructor
      · intro hc; exact absurd hc (by simp)
      · rintro ⟨h1, _⟩
        rw [h1] at hl
        simp at hl
    · next hl =>
      split
      · next hub =>
        constructor
        · intro hc; exact absurd hc (by simp)
        · rintro ⟨_, ub, hu, _⟩
          rw [hub] at hu
          exact Option.noConfusion hu
      · next ubets hub =>
        split
        · next he =>
          constructor
          · intro hc; exact absurd hc (by simp)
          · rintro ⟨_, ub, hu, hne⟩
            rw [hub] at hu
            injection hu with hu
            subst hu
            simp at he
            exact absurd he hne
        · next he =>
          constructor
          · intro _
            refine ⟨Option.not_isSome_iff_eq_none.mp hl, ubets, hub,
              fun hnil => he ?_⟩
            rw [hnil]
            rfl
          · intro _
            rfl
  · intro s' ubets hub h
    simp only [handleCancelBet, hfind, hdbid, Bool.false_eq_true,
      if_false] at h
    split at h
    · exact Option.noConfusion (congrArg Prod.snd h)
    · split at h
      · exact Option.noConfusion (congrArg Prod.snd h)
      · rename_i ub hub2
        rw [hub] at hub2
        injection hub2 with hub2
        subst hub2
        split at h
        · exact Option.noConfusion (congrArg Prod.snd h)
        · injection h with h1 _
          subst h1
          refine ⟨?_, ?_, ?_, ?_⟩
          · exact cancelAndRefund_dbPlayers s socketId pid ubets dbp hgp
          · intro tb htb
            intro hmem
            have := (cancelAndRefund_dbBets s socketId (some pid) ubets
              true tb.betId).mp hmem
            exact this.2 (List.mem_map.mpr ⟨tb, htb, rfl⟩)
          · intro tb htb hmem
            have := (cancelAndRefund_entry s socketId (some pid) ubets
              true hnodup tb.betId).mp hmem
            exact this.2 (List.mem_map.mpr ⟨tb, htb, rfl⟩)
          · exact alookup_adel_self _ _
  · simp only [handleCancelBet, hfind, hdbid, if_true]
    simp only [handleCancelLockedBets, hfind, hdbid]
    split
    · next hl =>
      constructor
      · intro hc; exact absurd hc (by simp)
      · rintro ⟨lb, hlb, _⟩
        rw [hl] at hlb
        exact Option.noConfusion hlb
    · next lbets hl =>
      split
      · next he =>
        constructor
        · intro hc; exact absurd hc (by simp)
        · rintro ⟨lb, hlb, hne⟩
          rw [hl] at hlb
          injection hlb with hlb
          subst hlb
          simp at he
          exact absurd he hne
      · next he =>
        constructor
        · intro _
          refine ⟨lbets, hl, fun hnil => he ?_⟩
          rw [hnil]
          rfl
        · intro _
          rfl

/-- Witness for the amended C8: cancelling at `playingState` (window
closed) succeeds, refunds the stake, and clears the store row and index
entry. -/
theorem cancel_bet_partitions_witness :
    getPlayer (handleCancelBet playingState "s1" false).1.dbPlayers 1 =
      some ⟨1, 200, 0, 0⟩ ∧
    alookup (handleCancelBet playingState "s1" false).1.unlockedBets "s1" =
      none := by
  have h := (cancel_bet_partitions playingState "s1"
    ⟨"s1", "Alice", 200, some 1⟩ 1 ⟨1, 150, 0, 0⟩ (by decide) rfl
    (by decide) (by decide)).2.2.1
    (handleCancelBet playingState "s1" false).1 [⟨"red", 50, 10⟩]
    (by decide) (by decide)
  exact ⟨h.1, h.2.2.2⟩

/-- Witness for C7: locking at `witState` succeeds and re-keys the wager
under the account id. -/
theorem lock_bet_exclusive_witness :
    handleLockBet witState "s1" =
      ({ witState with
          lockedBets := aset witState.lockedBets 1 [⟨"red", 50, 10⟩],
          unlockedBets := adel witState.unlockedBets "s1" }, none) ∧
    alookup (aset witState.lockedBets 1 [⟨"red", 50, 10⟩]) 1 =
      some [⟨"red", 50, 10⟩] := by
  have h := lock_bet_exclusive witState "s1" ⟨"s1", "Alice", 200, some 1⟩ 1
    (by decide) rfl
  have h3 := h.2.2 [⟨"red", 50, 10⟩] (by decide) (by decide) rfl (by decide)
    (by decide)
  exact ⟨h3.1, h3.2.1⟩

/-! ## C5: disconnect refunds unlocked wagers, preserves locked ones -/

/-- Membership in an entry found by key lifts to the flattened index. -/
theorem flatIds_of_entry (m : List (String × List ActiveBet)) (k : String)
    (i : Nat) (hi : i ∈ ((alookup m k).getD []).map (·.id)) :
    i ∈ flatIds m := by
  rcases halb : alookup m k with _ | entry
  · rw [halb] at hi; simp at hi
  · rw [halb] at hi
    simp only [Option.getD_some] at hi
    exact (flatIds_mem m i).mpr ⟨(k, entry), alookup_mem halb, hi⟩

/-- Ids in the index after `cancelAndRefund` come from the (cancelled)
entry of the cancelling connection or from an untouched other entry. -/
theorem cancelAndRefund_flatIds_elim (s : SysState) (k : String)
    (pid : Option Nat) (tb : List TrackedBet) (rc : Bool)
    (hkeys : (s.room.activeBets.map (·.1)).Nodup) (i : Nat)
    (hi : i ∈ flatIds (cancelAndRefund s k pid tb rc).room.activeBets) :
    (i ∈ ((alookup (cancelAndRefund s k pid tb rc).room.activeBets k).getD
      []).map (·.id)) ∨
    (∃ e ∈ s.room.activeBets, e.1 ≠ k ∧ i ∈ e.2.map (·.id)) := by
  rcases (flatIds_mem _ i).mp hi with ⟨e, he, hie⟩
  simp only [cancelAndRefund] at he ⊢
  rcases halb : alookup s.room.activeBets k with _ | entry
  · simp only [halb] at he
    exact Or.inr ⟨e, he, alookup_none_key halb e he, hie⟩
  · simp only [halb] at he ⊢
    by_cases hemp : (cancelBetsFromIndex entry tb).isEmpty
    · rw [if_pos hemp] at he
      rcases mem_adel_elim he with ⟨hm, hne⟩
      exact Or.inr ⟨e, hm, hne, hie⟩
    · rw [if_neg hemp] at he
      rcases mem_aset_elim hkeys he with rfl | ⟨hm, hne⟩
      · left
        rw [if_neg hemp, alookup_aset_self]
        simpa using hie
      · exact Or.inr ⟨e, hm, hne, hie⟩

/-- Under the preconditions of a refunding disconnect, `leaveRoom` is the
cancel-and-refund composite. -/
theorem leaveRoom_eq (s : SysState) (socketId : String)
    (player : RoomPlayer) (pid : Nat) (ubets : List TrackedBet)
    (hmem : socketId ∈ s.playerRooms)
    (hfind : s.room.players.find?
      (fun p => decide (p.socketId = socketId)) = some player)
    (hdbid : player.dbId = some pid)
    (hub : alookup s.unlockedBets socketId = some ubets) :
    leaveRoom s socketId =
      { cancelAndRefund
          { s with playerRooms :=
              s.playerRooms.filter (fun x => decide (x ≠ socketId)) }
          socketId (some pid) ubets (decide (0 < totalRefund ubets)) with
        unlockedBets := adel
          (cancelAndRefund
            { s with playerRooms :=
                s.playerRooms.filter (fun x => decide (x ≠ socketId)) }
            socketId (some pid) ubets
            (decide (0 < totalRefund ubets))).unlockedBets socketId,
        room := { (cancelAndRefund
            { s with playerRooms :=
                s.playerRooms.filter (fun x => decide (x ≠ socketId)) }
            socketId (some pid) ubets
            (decide (0 < totalRefund ubets))).room with
          players := (cancelAndRefund
            { s with playerRooms :=
                s.playerRooms.filter (fun x => decide (x ≠ socketId)) }
            socketId (some pid) ubets
            (decide (0 < totalRefund ubets))).room.players.filter
              (fun p => decide (p.socketId ≠ socketId)) } } := by
  simp only [leaveRoom]
  rw [if_neg (not_not_intro hmem)]
  rw [hfind]
  split
  · next heq =>
    rw [hub] at heq
    exact Option.noConfusion heq
  · next ub heq =>
    rw [hub] at heq
    injection heq with heq
    subst heq
    simp only [Option.bind]
    rw [hdbid]

/-- **C5**: On disconnect, every unlocked wager of the leaving connection
is deleted from the store, removed from the round's wager index, and its
full stake refunded to the account; locked wagers are preserved keyed by
account identity and stay in the wager index, so at reveal they settle
exactly once, while the cancelled unlocked wagers produce no settlement
entry at all. -/
theorem disconnect_refunds (s : SysState) (socketId : String)
    (player : RoomPlayer) (pid : Nat) (dbp : DbPlayer)
    (ubets : List TrackedBet)
    (hmem : socketId ∈ s.playerRooms)
    (hfind : s.room.players.find?
      (fun p => decide (p.socketId = socketId)) = some player)
    (hdbid : player.dbId = some pid)
    (hgp : getPlayer s.dbPlayers pid = some dbp)
    (hub : alookup s.unlockedBets socketId = some ubets)
    (hpos : 0 < totalRefund ubets)
    (hnodup : (((alookup s.room.activeBets socketId).getD []).map
      (·.id)).Nodup)
    (hkeys : (s.room.activeBets.map (·.1)).Nodup) :
    alookup (leaveRoom s socketId).unlockedBets socketId = none ∧
    getPlayer (leaveRoom s socketId).dbPlayers pid =
      some { dbp with chips := dbp.chips + totalRefund ubets } ∧
    (∀ tb ∈ ubets, tb.betId ∉
      ((alookup (leaveRoom s socketId).room.activeBets socketId).getD
        []).map (·.id)) ∧
    (∀ tb ∈ ubets, tb.betId ∉ (leaveRoom s socketId).dbBets.map (·.id)) ∧
    (leaveRoom s socketId).lockedBets = s.lockedBets ∧
    (∀ sid, sid ≠ socketId →
      alookup (leaveRoom s socketId).room.activeBets sid =
        alookup s.room.activeBets sid) ∧
    (∀ i, i ∈ ((alookup s.room.activeBets socketId).getD []).map (·.id) →
      i ∉ ubets.map (·.betId) →
      i ∈ flatIds (leaveRoom s socketId).room.activeBets ∧
      ∀ card, ((resolveBetsList card
        (leaveRoom s socketId).room.activeBets).map (·.betId)).count i = 1) ∧
    (∀ tb ∈ ubets,
      (∀ e ∈ s.room.activeBets, e.1 ≠ socketId →
        tb.betId ∉ e.2.map (·.id)) →
      ∀ card, tb.betId ∉ (resolveBetsList card
        (leaveRoom s socketId).room.activeBets).map (·.betId)) := by
  rw [leaveRoom_eq s socketId player pid ubets hmem hfind hdbid hub,
    decide_eq_true hpos]
  refine ⟨alookup_adel_self _ _, ?_, ?_, ?_, rfl, ?_, ?_, ?_⟩
  · exact cancelAndRefund_dbPlayers _ socketId pid ubets dbp hgp
  · intro tb htb hmemi
    have := (cancelAndRefund_entry _ socketId (some pid) ubets true
      hnodup tb.betId).mp hmemi
    exact this.2 (List.mem_map.mpr ⟨tb, htb, rfl⟩)
  · intro tb htb hmemi
    have := (cancelAndRefund_dbBets _ socketId (some pid) ubets true
      tb.betId).mp hmemi
    exact this.2 (List.mem_map.mpr ⟨tb, htb, rfl⟩)
  · intro sid hne
    exact cancelAndRefund_other _ socketId (some pid) ubets true sid hne
  · intro i hi hni
    have hsurv : i ∈ ((alookup (cancelAndRefund
        { s with playerRooms :=
            s.playerRooms.filter (fun x => decide (x ≠ socketId)) }
        socketId (some pid) ubets true).room.activeBets socketId).getD
        []).map (·.id) :=
      (cancelAndRefund_entry _ socketId (some pid) ubets true hnodup
        i).mpr ⟨hi, hni⟩
    have hflat := flatIds_of_entry _ _ _ hsurv
    refine ⟨hflat, fun card => ?_⟩
    simp only [resolveBetsList]
    refine List.count_eq_one_of_mem (settleEntries_nodup card _ []) ?_
    rw [settleEntries_mem card _ [] i]
    exact ⟨hflat, by simp⟩
  · intro tb htb honly card hmemr
    simp only [resolveBetsList] at hmemr
    rw [settleEntries_mem card _ [] tb.betId] at hmemr
    rcases cancelAndRefund_flatIds_elim _ socketId (some pid) ubets true
      hkeys tb.betId hmemr.1 with hin | ⟨e, he, hne, hie⟩
    · have := (cancelAndRefund_entry _ socketId (some pid) ubets true
        hnodup tb.betId).mp hin
      exact this.2 (List.mem_map.mpr ⟨tb, htb, rfl⟩)
    · exact honly e he hne hie

/-- Witness for C5: the `witState` player disconnects before locking — the
wager is refunded and its index entry removed. -/
theorem disconnect_refunds_witness :
    alookup (leaveRoom witState "s1").unlockedBets "s1" = none ∧
    getPlayer (leaveRoom witState "s1").dbPlayers 1 =
      some ⟨1, 200, 0, 0⟩ := by
  have h := disconnect_refunds witState "s1" ⟨"s1", "Alice", 200, some 1⟩ 1
    ⟨1, 150, 0, 0⟩ [⟨"red", 50, 10⟩] (by decide) (by decide) rfl (by decide)
    (by decide) (by decide) (by decide) (by decide)
  exact ⟨h.1, h.2.1⟩

end Lucky7
